import Mathlib

/-
Verification of `packages/core/src/core/openRouterContentGenerator.ts`
(class `OpenRouterContentGenerator`), a compatibility adapter between a
structured content-parts schema ("Schema A") and an OpenAI-style
chat-completion schema ("Schema B").

The embedding follows the TypeScript source line by line:

  * JavaScript strings are modelled as `List Char` (`Str`).
  * JavaScript runtime values produced by `JSON.parse` (plus `undefined`,
    which property access on a missing key yields) are modelled by `JSVal`.
  * Property access `x.k` throws a TypeError on `null`/`undefined` and is
    modelled by `jsMember : JSVal → Str → Except Unit JSVal`; the optional
    chain `x?.k` is `jsOptMember`.
  * `JSON.parse` is modelled by `jsonParse`, a fuel-indexed recursive
    descent parser for the JSON grammar (objects, arrays, strings with
    escapes, numbers with fraction/exponent, `true`/`false`/`null`).
  * The streaming generator of `generateContentStream` (lines 128-172) is
    modelled by `decodeStream`: the text decoded from each successive read
    of the byte stream is one chunk (`TextDecoder` with the `stream`
    option is invariant under byte-level chunk splits, so every byte-level
    split corresponds to a split of the decoded character sequence).
-/

namespace OpenRouterCG

/-- Characters of a JavaScript string, modelled as a list of characters. -/
abbrev Str := List Char

/-- JavaScript runtime values: the JSON values `JSON.parse` can produce,
plus `undefined` (`undefined`), which property access on a missing key yields.
Numbers are modelled as rationals (all JSON numeric literals are exactly
representable; no claim inspects numeric values). -/
inductive JSVal where
  | undefined
  | null
  | bool (b : Bool)
  | num (q : ℚ)
  | str (s : Str)
  | arr (xs : List JSVal)
  | obj (fields : List (Str × JSVal))

/-- JavaScript truthiness: `undefined`, `null`, `false`, `0`, and the
empty string are falsy; every object and array is truthy. -/
def truthy : JSVal → Bool
  | .undefined => false
  | .null => false
  | .bool b => b
  | .num q => decide (q ≠ 0)
  | .str s => decide (s ≠ [])
  | .arr _ => true
  | .obj _ => true

/-- Property lookup on an object's field list; when `JSON.parse` meets a
duplicate key the later occurrence wins, hence the left fold. A missing
key yields `undefined`. -/
def objLookup (fields : List (Str × JSVal)) (k : Str) : JSVal :=
  fields.foldl (fun acc p => if p.1 = k then p.2 else acc) .undefined

/-- JavaScript property access `v[k]` (string key): throws a TypeError on
`null`/`undefined`, looks the key up on objects, yields `length` on arrays
and strings, and `undefined` on every other primitive. -/
def jsMember : JSVal → Str → Except Unit JSVal
  | .undefined, _ => .error ()
  | .null, _ => .error ()
  | .obj fields, k => .ok (objLookup fields k)
  | .arr xs, k => .ok (if k = "length".data then .num xs.length else .undefined)
  | .str s, k => .ok (if k = "length".data then .num s.length else .undefined)
  | .bool _, _ => .ok .undefined
  | .num _, _ => .ok .undefined

/-- JavaScript indexed access `v[i]` with a numeric literal: throws on
`null`/`undefined`, indexes arrays (out of range gives `undefined`) and
strings (one-character string), coerces the index to a string key on
objects, and yields `undefined` on other primitives. -/
def jsIndex : JSVal → Nat → Except Unit JSVal
  | .undefined, _ => .error ()
  | .null, _ => .error ()
  | .arr xs, i => .ok ((xs.get? i).getD .undefined)
  | .str s, i => .ok (match s.get? i with | some c => .str [c] | none => .undefined)
  | .obj fields, i => .ok (objLookup fields (toString i).data)
  | .bool _, _ => .ok .undefined
  | .num _, _ => .ok .undefined

/-- The optional chain `v?.k`: short-circuits to `undefined` on
`null`/`undefined`, otherwise plain property access (which can no longer
throw). -/
def jsOptMember (v : JSVal) (k : Str) : JSVal :=
  match v with
  | .undefined => .undefined
  | .null => .undefined
  | _ => match jsMember v k with
    | .ok r => r
    | .error _ => .undefined

/-! ### The JSON parser (model of `JSON.parse`) -/

/-- Skip JSON insignificant whitespace (space, tab, line feed, carriage
return). -/
def skipWs : Str → Str
  | [] => []
  | c :: rest =>
    if c = ' ' ∨ c = '\t' ∨ c = '\n' ∨ c = '\r' then skipWs rest else c :: rest

/-- Decimal digit value of a character, if any. -/
def digitVal (c : Char) : Option Nat :=
  if '0' ≤ c ∧ c ≤ '9' then some (c.toNat - '0'.toNat) else none

/-- Hexadecimal digit value of a character, if any. -/
def hexVal (c : Char) : Option Nat :=
  if '0' ≤ c ∧ c ≤ '9' then some (c.toNat - '0'.toNat)
  else if 'a' ≤ c ∧ c ≤ 'f' then some (c.toNat - 'a'.toNat + 10)
  else if 'A' ≤ c ∧ c ≤ 'F' then some (c.toNat - 'A'.toNat + 10)
  else none

/-- Take the longest run of decimal digits from the front of the input. -/
def takeDigits : Str → List Nat × Str
  | [] => ([], [])
  | c :: rest =>
    match digitVal c with
    | some d =>
      let p := takeDigits rest
      (d :: p.1, p.2)
    | none => ([], c :: rest)

/-- The natural number denoted by a digit run. -/
def natOfDigits (ds : List Nat) : Nat :=
  ds.foldl (fun a d => 10 * a + d) 0

/-- Parse a JSON number literal: optional minus, integer part without
leading zeros, optional fraction, optional exponent. -/
def parseNumber (l : Str) : Option (ℚ × Str) :=
  let sl : Bool × Str := match l with
    | '-' :: r => (true, r)
    | _ => (false, l)
  let ip : Option (Nat × Str) := match sl.2 with
    | '0' :: r =>
      match r with
      | c :: _ => if (digitVal c).isSome then none else some (0, r)
      | [] => some (0, [])
    | l1 =>
      let p := takeDigits l1
      if p.1.isEmpty then none else some (natOfDigits p.1, p.2)
  match ip with
  | none => none
  | some (i, r1) =>
    let fr : Option (ℚ × Str) := match r1 with
      | '.' :: r2 =>
        let p := takeDigits r2
        if p.1.isEmpty then none
        else some ((natOfDigits p.1 : ℚ) / (10 : ℚ) ^ p.1.length, p.2)
      | _ => some (0, r1)
    match fr with
    | none => none
    | some (f, r4) =>
      let ex : Option (Int × Str) := match r4 with
        | c :: r5 =>
          if c = 'e' ∨ c = 'E' then
            let sr : Int × Str := match r5 with
              | '+' :: r => (1, r)
              | '-' :: r => (-1, r)
              | _ => (1, r5)
            let p := takeDigits sr.2
            if p.1.isEmpty then none else some (sr.1 * natOfDigits p.1, p.2)
          else some (0, c :: r5)
        | [] => some (0, [])
      match ex with
      | none => none
      | some (e, r8) =>
        let base : ℚ := (i : ℚ) + f
        some ((if sl.1 then -base else base) * (10 : ℚ) ^ e, r8)

/-- Translate a simple JSON escape character. -/
def parseEsc (c : Char) : Option Char :=
  if c = '"' then some '"'
  else if c = '\\' then some '\\'
  else if c = '/' then some '/'
  else if c = 'b' then some '\x08'
  else if c = 'f' then some '\x0c'
  else if c = 'n' then some '\n'
  else if c = 'r' then some '\r'
  else if c = 't' then some '\t'
  else none

/-- Parse the body of a JSON string literal, the opening quote already
consumed; raw control characters are rejected, escapes are translated.
The fuel argument only bounds recursion depth (one unit per character). -/
def parseStringRest : Nat → Str → Option (Str × Str)
  | 0, _ => none
  | _, [] => none
  | fuel + 1, c :: rest =>
    if c = '"' then some ([], rest)
    else if c = '\\' then
      match rest with
      | 'u' :: a :: b :: c2 :: d :: rest2 =>
        match hexVal a, hexVal b, hexVal c2, hexVal d with
        | some ha, some hb, some hc, some hd =>
          match parseStringRest fuel rest2 with
          | some (s, r) =>
            some (Char.ofNat (((ha * 16 + hb) * 16 + hc) * 16 + hd) :: s, r)
          | none => none
        | _, _, _, _ => none
      | e :: rest2 =>
        match parseEsc e with
        | some ch =>
          match parseStringRest fuel rest2 with
          | some (s, r) => some (ch :: s, r)
          | none => none
        | none => none
      | [] => none
    else if c.toNat < 32 then none
    else
      match parseStringRest fuel rest with
      | some (s, r) => some (c :: s, r)
      | none => none

mutual

/-- Parse one JSON value (leading whitespace allowed), returning the value
and the unconsumed remainder. Each unit of fuel accompanies at least one
consumed character, so fuel `length + 1` always suffices. -/
def parseVal : Nat → Str → Option (JSVal × Str)
  | 0, _ => none
  | fuel + 1, l =>
    match skipWs l with
    | [] => none
    | c :: rest =>
      if c = '\x7b' then
        match skipWs rest with
        | '\x7d' :: r2 => some (.obj [], r2)
        | r2 => parseMembers fuel [] r2
      else if c = '[' then
        match skipWs rest with
        | ']' :: r2 => some (.arr [], r2)
        | r2 => parseElems fuel [] r2
      else if c = '"' then
        match parseStringRest (rest.length + 1) rest with
        | some (s, r) => some (.str s, r)
        | none => none
      else if c = 't' then
        match rest with
        | 'r' :: 'u' :: 'e' :: r => some (.bool true, r)
        | _ => none
      else if c = 'f' then
        match rest with
        | 'a' :: 'l' :: 's' :: 'e' :: r => some (.bool false, r)
        | _ => none
      else if c = 'n' then
        match rest with
        | 'u' :: 'l' :: 'l' :: r => some (.null, r)
        | _ => none
      else
        match parseNumber (c :: rest) with
        | some (q, r) => some (.num q, r)
        | none => none

/-- Parse the members of a JSON object after the opening brace (at least
one member present), accumulating parsed key/value pairs. -/
def parseMembers : Nat → List (Str × JSVal) → Str → Option (JSVal × Str)
  | 0, _, _ => none
  | fuel + 1, acc, l =>
    match skipWs l with
    | '"' :: rest =>
      match parseStringRest (rest.length + 1) rest with
      | none => none
      | some (key, r1) =>
        match skipWs r1 with
        | ':' :: r2 =>
          match parseVal fuel r2 with
          | none => none
          | some (v, r3) =>
            match skipWs r3 with
            | ',' :: r4 => parseMembers fuel (acc ++ [(key, v)]) r4
            | '\x7d' :: r4 => some (.obj (acc ++ [(key, v)]), r4)
            | _ => none
        | _ => none
    | _ => none

/-- Parse the elements of a JSON array after the opening bracket (at
least one element present). -/
def parseElems : Nat → List JSVal → Str → Option (JSVal × Str)
  | 0, _, _ => none
  | fuel + 1, acc, l =>
    match parseVal fuel l with
    | none => none
    | some (v, r1) =>
      match skipWs r1 with
      | ',' :: r2 => parseElems fuel (acc ++ [v]) r2
      | ']' :: r2 => some (.arr (acc ++ [v]), r2)
      | _ => none

end

/-- Model of `JSON.parse`: parse one value and require only whitespace to
remain. -/
def jsonParse (l : Str) : Option JSVal :=
  match parseVal (l.length + 1) l with
  | some (v, rest) => if skipWs rest = [] then some v else none
  | none => none

/-! ### The streaming decoder (lines 128-172 of the source) -/

/-- Whitespace characters removed by JavaScript `String.prototype.trim`
(restricted to the ASCII range; all stream framing is ASCII). -/
def isJsWs (c : Char) : Bool :=
  c = ' ' ∨ c = '\t' ∨ c = '\n' ∨ c = '\r' ∨ c = '\x0b' ∨ c = '\x0c'

/-- Model of `line.trim()`. -/
def jsTrim (l : Str) : Str :=
  ((l.dropWhile isJsWs).reverse.dropWhile isJsWs).reverse

/-- The event-data marker `"data: "` checked by
`trimmed.startsWith('data: ')`. -/
def sseMarker : Str := "data: ".data

/-- The literal termination frame `"data: [DONE]"`. -/
def doneLine : Str := "data: [DONE]".data

/-- Model of `buffer.split('\n')` followed by `buffer = lines.pop() || ''`:
the first component is the list of complete lines, the second the trailing
text after the last newline, retained as the new buffer. -/
def splitNl : Str → List Str × Str
  | [] => ([], [])
  | c :: rest =>
    if c = '\n' then ([] :: (splitNl rest).1, (splitNl rest).2)
    else
      match splitNl rest with
      | ([], b) => ([], c :: b)
      | (l :: ls, b) => ((c :: l) :: ls, b)

/-- The expression `data.choices[0]?.delta?.content` of line 147: accessing
`choices` throws on a `null` payload, indexing throws when `choices` is
absent; both errors are caught by the surrounding `try`. -/
def extractDelta (data : JSVal) : Except Unit JSVal :=
  match jsMember data "choices".data with
  | .error e => .error e
  | .ok choices =>
    match jsIndex choices 0 with
    | .error e => .error e
    | .ok c0 => .ok (jsOptMember (jsOptMember c0 "delta".data) "content".data)

/-- The expression `data.choices[0]?.finish_reason` of line 157; it is only
evaluated after `extractDelta` succeeded, so the throwing paths are
unreachable and collapse to `undefined`. -/
def extractFinish (data : JSVal) : JSVal :=
  match jsMember data "choices".data with
  | .error _ => .undefined
  | .ok choices =>
    match jsIndex choices 0 with
    | .error _ => .undefined
    | .ok c0 => jsOptMember c0 "finish_reason".data

/-- One value yielded by the streaming generator (lines 149-161): the
non-empty delta text, which also fills the single candidate's only text
part (role `model`), and the frame's finish reason, where
`|| undefined` turns a falsy `finish_reason` into absence. -/
structure PartialResponse where
  textDelta : JSVal
  finishReason : Option JSVal

/-- Outcome of the per-line body of the `for` loop (lines 139-167). -/
inductive LineResult where
  | emit (p : PartialResponse)
  | skip
  | done

/-- The per-line body: trim, skip empty lines, return on the termination
frame, and on an event-data line parse the payload and emit the truthy
delta content; JSON parse errors and field-access TypeErrors are caught
and the line skipped. -/
def processLine (line : Str) : LineResult :=
  let trimmed := jsTrim line
  if trimmed = [] then .skip
  else if trimmed = doneLine then .done
  else if trimmed.take 6 = sseMarker then
    match jsonParse (trimmed.drop 6) with
    | none => .skip
    | some data =>
      match extractDelta data with
      | .error _ => .skip
      | .ok content =>
        if truthy content then
          .emit ⟨content,
            if truthy (extractFinish data) then some (extractFinish data)
            else none⟩
        else .skip
  else .skip

/-- Run the loop body over the complete lines of one chunk, collecting the
yielded values; the Boolean records whether the termination frame ended
the generator. -/
def processLines : List Str → List PartialResponse × Bool
  | [] => ([], false)
  | l :: ls =>
    match processLine l with
    | .done => ([], true)
    | .skip => processLines ls
    | .emit p =>
      let tail := processLines ls
      (p :: tail.1, tail.2)

/-- The `while (true)` read loop: an empty chunk list models the stream
reporting completion (`done`), which discards the buffer; otherwise the
chunk is appended to the buffer, the buffer split on newlines, the
complete lines processed, and — unless the termination frame was seen —
the loop continues with the retained partial line. -/
def runDecoder : List Str → Str → List PartialResponse
  | [], _ => []
  | chunk :: rest, buffer =>
    let split := splitNl (buffer ++ chunk)
    let out := processLines split.1
    if out.2 then out.1 else out.1 ++ runDecoder rest split.2

/-- The whole streaming generator: start with an empty buffer. Each chunk
is the text decoded from one read of the underlying byte stream. -/
def decodeStream (chunks : List Str) : List PartialResponse :=
  runDecoder chunks []

/-! ### Schema-A content and the request translator (lines 204-229) -/

/-- One part of a Schema-A turn; `text = none` models a part without a
`text` key (a non-text part). -/
structure Part where
  text : Option Str

/-- One Schema-A turn (`Content` of `@google/genai`): an optional role
string and an optional part list. -/
structure Content where
  role : Option Str
  parts : Option (List Part)

/-- A Schema-B chat message. -/
structure ChatMessage where
  role : Str
  content : Str

/-- The `contents` argument of the adapter's operations, dispatched on by
`typeof contents === 'string'` and `Array.isArray(contents)`; `other`
stands for any value that is neither (the source never inspects such a
value further). -/
inductive ContentsArg where
  | str (s : Str)
  | arr (cs : List Content)
  | other

/-- Lines 215-216: `role === 'model'` becomes `assistant`, any other role
passes through, and a falsy role (absent or empty) defaults to `user`. -/
def msgRole (role : Option Str) : Str :=
  let r := if role = some "model".data then "assistant".data else role.getD []
  if r = [] then "user".data else r

/-- Lines 218-222: keep the parts whose `text` is present and truthy, map
each to its text, and join. -/
def turnText (c : Content) : Str :=
  (((c.parts.getD []).filter fun p => !(p.text.getD []).isEmpty).map
    fun p => p.text.getD []).flatten

/-- `convertContentsToMessages` (lines 205-229). -/
def convertContentsToMessages : ContentsArg → List ChatMessage
  | .str s => [⟨"user".data, s⟩]
  | .arr cs => cs.map fun c => ⟨msgRole c.role, turnText c⟩
  | .other => []

/-- The completion request body built by `generateContent` (lines 50-56)
and `generateContentStream` (lines 96-103); `temperature` defaults to 0.7
and `top_p` to 1.0, `max_tokens` stays absent when not provided. -/
structure RequestBody where
  model : Str
  messages : List ChatMessage
  stream : Bool
  temperature : ℚ
  top_p : ℚ
  max_tokens : Option ℚ

/-- Assemble the outbound request body from the raw `contents` value and
the optional generation parameters. -/
def buildRequestBody (model : Str) (contents : ContentsArg) (stream : Bool)
    (temperature topP maxTokens : Option ℚ) : RequestBody :=
  ⟨model, convertContentsToMessages contents, stream,
    temperature.getD (7 / 10), topP.getD 1, maxTokens⟩

/-! ### The response translator (lines 231-255) -/

/-- One candidate of the translated response: the part list (each part is
its text value), the fixed role, the verbatim finish reason (`undefined`
when the source has none), and the fixed index. -/
structure Candidate where
  parts : List JSVal
  role : Str
  finishReason : JSVal
  index : Nat

/-- The translated Schema-A response: the candidates, the primary `text`,
and the retained raw provider payload. -/
structure GeminiResponse where
  candidates : List Candidate
  text : JSVal
  rawData : JSVal

/-- `convertOpenAIResponseToGemini` (lines 231-255). The expression
`data.choices[0]?.message?.content || ''` throws a TypeError when
`choices` is absent or `null` — the optional chain begins only after
`[0]`; nothing catches this error. -/
def convertOpenAIResponseToGemini (data : JSVal) : Except Unit GeminiResponse :=
  match jsMember data "choices".data with
  | .error e => .error e
  | .ok choices =>
    match jsIndex choices 0 with
    | .error e => .error e
    | .ok c0 =>
      let raw := jsOptMember (jsOptMember c0 "message".data) "content".data
      let content := if truthy raw then raw else .str []
      .ok ⟨[⟨[content], "model".data, jsOptMember c0 "finish_reason".data, 0⟩],
        content, data⟩

/-! ### The token estimator (lines 175-195) -/

/-- Lines 179-192: the text whose length is estimated — the string itself,
or the concatenation over all turns of each turn's truthy part texts
(`map` to text-or-empty, `filter(Boolean)`, `join`), or empty for any
other value. -/
def countTokensText : ContentsArg → Str
  | .str s => s
  | .arr cs =>
    (cs.map fun c =>
      (((c.parts.getD []).map fun p => p.text.getD []).filter
        fun t => !t.isEmpty).flatten).flatten
  | .other => []

/-- Line 194: `Math.ceil(text.length / 4)`. -/
def countTokens (c : ContentsArg) : Nat :=
  ((countTokensText c).length + 3) / 4

/-! ### The unsupported embedding operation (lines 197-202) -/

/-- A transport invocation; the adapter's only effect kind of interest. -/
inductive NetEffect where
  | fetchCall (url : Str)

/-- `embedContent`: the body is a single `throw` — no transport invocation
ever happens and no successful result is ever produced. The first
component records the transport invocations performed (none). -/
def embedContent (_request : JSVal) : List NetEffect × Except Str Unit :=
  ([], .error "Embed content not supported via OpenRouter yet.".data)

/-! ### Spec-side definitions, for the refinement comparisons -/

/-- Spec §3: the content of a message is "the concatenation, in order, of
all text parts of the source Turn (non-text parts contribute nothing)". -/
def specTurnText (c : Content) : Str :=
  ((c.parts.getD []).filterMap Part.text).flatten

/-- Spec §4.4: "concatenate all text parts (non-text parts excluded)" over
the whole content value. -/
def specAllText : ContentsArg → Str
  | .str s => s
  | .arr cs => (cs.map specTurnText).flatten
  | .other => []

/-! ## Decoder lemmas -/

/-- Splitting a concatenation: the complete lines of `a ++ b` are the
complete lines of `a` followed by those of `a`'s retained buffer joined
with `b`, and the final buffer comes from the latter. -/
theorem splitNl_append (a b : Str) :
    splitNl (a ++ b) =
      ((splitNl a).1 ++ (splitNl ((splitNl a).2 ++ b)).1,
       (splitNl ((splitNl a).2 ++ b)).2) := by
  induction a with
  | nil => simp [splitNl]
  | cons c a ih =>
    by_cases hc : c = '\n'
    · subst hc
      simp [splitNl, ih]
    · cases h : splitNl a with
    | mk l1 t1 =>
      cases h2 : splitNl (t1 ++ b) with
      | mk l2 t2 =>
        cases l1 with
        | nil =>
          have ih' : splitNl (a ++ b) = (l2, t2) := by
            rw [ih, h]; simp [h2]
          cases l2 with
          | nil => simp [splitNl, hc, ih', h, h2]
          | cons x xs => simp [splitNl, hc, ih', h, h2]
        | cons hd tl =>
          have ih' : splitNl (a ++ b) = (hd :: (tl ++ l2), t2) := by
            rw [ih, h]; simp [h2]
          simp [splitNl, hc, ih', h, h2]

/-- A newline-free input has no complete line and is retained whole. -/
theorem splitNl_no_nl (t : Str) (h : '\n' ∉ t) : splitNl t = ([], t) := by
  induction t with
  | nil => simp [splitNl]
  | cons c t ih =>
    have hc : c ≠ '\n' := fun hh => h (hh ▸ List.mem_cons_self c t)
    have ht : '\n' ∉ t := fun hh => h (List.mem_cons_of_mem c hh)
    simp [splitNl, hc, ih ht]

/-- The retained buffer never contains a newline. -/
theorem splitNl_buffer_no_nl (l : Str) : '\n' ∉ (splitNl l).2 := by
  induction l with
  | nil => simp [splitNl]
  | cons c l ih =>
    by_cases hc : c = '\n'
    · subst hc; simpa [splitNl] using ih
    · cases h : splitNl l with
    | mk ls b =>
      rw [h] at ih
      cases ls with
      | nil =>
        simp only [splitNl, if_neg hc, h]
        intro hm
        rcases List.mem_cons.mp hm with h1 | h1
        · exact hc h1.symm
        · exact ih h1
      | cons hd tl => simpa [splitNl, hc, h] using ih

/-- Processing a concatenation of line lists: the lines after a
termination frame contribute nothing. -/
theorem processLines_append (l1 l2 : List Str) :
    processLines (l1 ++ l2) =
      ((processLines l1).1 ++
        (if (processLines l1).2 then [] else (processLines l2).1),
       (processLines l1).2 || (processLines l2).2) := by
  induction l1 with
  | nil => simp [processLines]
  | cons l ls ih =>
    cases h : processLine l with
    | done => simp [processLines, h]
    | skip => simp [processLines, h, ih]
    | emit p =>
      by_cases hd : (processLines ls).2 <;>
        simp [processLines, h, ih, hd]

/-- Two adjacent reads decode exactly like their concatenation delivered
as a single read. -/
theorem runDecoder_merge (c1 c2 : Str) (rest : List Str) (buf : Str) :
    runDecoder (c1 :: c2 :: rest) buf = runDecoder ((c1 ++ c2) :: rest) buf := by
  have hassoc : buf ++ (c1 ++ c2) = (buf ++ c1) ++ c2 := (List.append_assoc buf c1 c2).symm
  simp only [runDecoder, hassoc, splitNl_append (buf ++ c1) c2, processLines_append]
  by_cases h1 : (processLines (splitNl (buf ++ c1)).1).2
  · simp [h1]
  · by_cases h2 : (processLines (splitNl ((splitNl (buf ++ c1)).2 ++ c2)).1).2 <;>
      simp [h1, h2, runDecoder]

/-- Auxiliary induction for chunk-boundary independence: a chunk list with
an explicit head decodes like the single read made of its concatenation. -/
theorem decodeStream_cons_flatten (cs : List Str) :
    ∀ c1 : Str, decodeStream (c1 :: cs) = decodeStream [c1 ++ cs.flatten] := by
  induction cs with
  | nil => intro c1; simp
  | cons c2 rest ih =>
    intro c1
    calc decodeStream (c1 :: c2 :: rest)
        = decodeStream ((c1 ++ c2) :: rest) := runDecoder_merge c1 c2 rest []
      _ = decodeStream [(c1 ++ c2) ++ rest.flatten] := ih (c1 ++ c2)
      _ = decodeStream [c1 ++ (c2 :: rest).flatten] := by
          rw [List.append_assoc, List.flatten_cons]

/-- C1: For every byte sequence and every way of splitting it into
successive reads, the streaming decoder yields the same ordered sequence
of partial responses (same text deltas and finish reasons) as when the
entire sequence is delivered in a single read. Chunks model the text the
stateful `TextDecoder` produces per read, so this covers every split of
the byte sequence into non-empty reads. -/
theorem c1_chunk_boundary_independence (chunks : List Str) :
    decodeStream chunks = decodeStream [chunks.flatten] := by
  cases chunks with
  | nil => simp [decodeStream, runDecoder, splitNl, processLines]
  | cons c cs => simpa using decodeStream_cons_flatten cs c

/-- A line the loop body skips contributes nothing, before or after any
other lines. -/
theorem processLines_skip_middle (l : Str) (hskip : processLine l = .skip)
    (pre post : List Str) :
    processLines (pre ++ l :: post) = processLines (pre ++ post) := by
  rw [processLines_append, processLines_append]
  have h2 : processLines (l :: post) = processLines post := by
    simp [processLines, hskip]
  rw [h2]

/-- An ending newline completes a line and empties the buffer. -/
theorem splitNl_newline_end (x : Str) (h : '\n' ∉ x) :
    splitNl (x ++ ['\n']) = ([x], []) := by
  induction x with
  | nil => simp [splitNl]
  | cons c x ih =>
    have hc : c ≠ '\n' := fun hh => h (hh ▸ List.mem_cons_self c x)
    have hx : '\n' ∉ x := fun hh => h (List.mem_cons_of_mem c hh)
    simp [splitNl, hc, ih hx]

/-- A well-formed event frame used by several witnesses: it carries the
delta text `"Hi"` and no finish reason. -/
def frameHi : Str :=
  "data: \x7b\"choices\":[\x7b\"delta\":\x7b\"content\":\"Hi\"\x7d\x7d]\x7d".data

/-- C4: Whenever a complete line trims to exactly `data: [DONE]`, the
decoder terminates immediately and without error: the lines after it in
the same chunk contribute nothing, and when such a line occurs among a
chunk's complete lines the whole run stops there — the unread remainder
of the stream is never consumed. -/
theorem c4_done_terminates (l : Str) (h : jsTrim l = doneLine) :
    processLine l = LineResult.done ∧
    (∀ pre post : List Str,
      processLines (pre ++ l :: post) = ((processLines pre).1, true)) ∧
    ∀ (buf c : Str) (rest pre post : List Str),
      (splitNl (buf ++ c)).1 = pre ++ l :: post →
      runDecoder (c :: rest) buf = (processLines pre).1 := by
  have hne : doneLine ≠ ([] : Str) := by decide
  have h1 : processLine l = LineResult.done := by
    simp only [processLine, h]
    rw [if_neg hne]
    simp
  have h2 : ∀ pre post : List Str,
      processLines (pre ++ l :: post) = ((processLines pre).1, true) := by
    intro pre post
    have hl : processLines (l :: post) = ([], true) := by
      simp [processLines, h1]
    rw [processLines_append, hl]
    by_cases hd : (processLines pre).2 <;> simp [hd]
  refine ⟨h1, h2, fun buf c rest pre post hsp => ?_⟩
  simp only [runDecoder, hsp, h2 pre post]
  simp

/-- Witness for C4, realizing the spec's example stream: a frame carrying
`"Hi"`, then the termination frame, then material that must be ignored —
both a later line of the same chunk and a whole later chunk. -/
theorem c4_witness :
    processLine "data: [DONE]".data = LineResult.done ∧
    runDecoder
        [frameHi ++ '\n' :: "data: [DONE]".data ++ '\n' ::
          "data: IGNORED".data ++ ['\n'],
         "data: AFTER\n".data] [] =
      (processLines [frameHi]).1 ∧
    (processLines [frameHi]).1 = [⟨.str "Hi".data, none⟩] := by
  have h := c4_done_terminates "data: [DONE]".data (by decide)
  refine ⟨h.1, ?_, rfl⟩
  exact h.2.2 [] _ ["data: AFTER\n".data] [frameHi] ["data: IGNORED".data]
    (by decide)

/-- C6 (first half): when the underlying stream reports completion the
decoder stops producing values, whatever partial line the buffer still
holds. C6 (second half): a trailing frame not terminated by a newline is
never emitted — appending any newline-free text after the last newline
leaves the decoded sequence unchanged. -/
theorem c6_completion_discards_buffer :
    (∀ buf : Str, runDecoder [] buf = []) ∧
    ∀ s t : Str, '\n' ∉ t →
      decodeStream [s ++ '\n' :: t] = decodeStream [s ++ ['\n']] := by
  refine ⟨fun buf => rfl, fun s t ht => ?_⟩
  have hbuf : (splitNl (s ++ ['\n'])).2 = [] := by
    rw [splitNl_append s ['\n'],
      splitNl_newline_end _ (splitNl_buffer_no_nl s)]
  have hsplit1 : splitNl (s ++ '\n' :: t) = ((splitNl (s ++ ['\n'])).1, t) := by
    have hs : s ++ '\n' :: t = (s ++ ['\n']) ++ t := by simp
    rw [hs, splitNl_append (s ++ ['\n']) t, hbuf]
    simp [splitNl_no_nl t ht]
  show runDecoder [s ++ '\n' :: t] [] = runDecoder [s ++ ['\n']] []
  by_cases d : (processLines (splitNl (s ++ ['\n'])).1).2 <;>
    simp [runDecoder, hsplit1, d]

/-- Witness for C6: an unterminated, fully well-formed frame left in the
buffer when the stream completes is discarded. -/
theorem c6_witness :
    runDecoder [] frameHi = [] ∧
    decodeStream ["data: X".data ++ '\n' :: frameHi] =
      decodeStream ["data: X".data ++ ['\n']] :=
  ⟨c6_completion_discards_buffer.1 frameHi,
   c6_completion_discards_buffer.2 "data: X".data frameHi (by decide)⟩

/-- C5 as stated is refuted by the termination frame itself: the line
`data: [DONE]` begins with the event-data prefix and its remainder
`[DONE]` is not valid JSON, yet the decoder does not continue past it — a
valid frame after it yields nothing, while that frame alone would emit. -/
theorem c5_counterexample :
    (jsTrim "data: [DONE]".data).take 6 = sseMarker ∧
    jsonParse ((jsTrim "data: [DONE]".data).drop 6) = none ∧
    processLine frameHi = LineResult.emit ⟨.str "Hi".data, none⟩ ∧
    decodeStream ["data: [DONE]".data ++ '\n' :: frameHi ++ ['\n']] = [] :=
  ⟨by decide, rfl, rfl, rfl⟩

/-- C5 amended: every complete line that begins with `data: ` and whose
remainder is not valid JSON — other than the exact termination frame
`data: [DONE]` — is silently discarded: the decoder emits nothing for it,
raises no error, and the surrounding lines decode exactly as if the line
were absent. -/
theorem c5_malformed_line_skipped (l : Str)
    (hpre : (jsTrim l).take 6 = sseMarker)
    (hbad : jsonParse ((jsTrim l).drop 6) = none)
    (hnd : jsTrim l ≠ doneLine) :
    processLine l = LineResult.skip ∧
    ∀ pre post : List Str,
      processLines (pre ++ l :: post) = processLines (pre ++ post) := by
  have hne : jsTrim l ≠ [] := by
    intro h0
    rw [h0] at hpre
    exact absurd hpre (by decide)
  have h1 : processLine l = LineResult.skip := by
    simp only [processLine]
    rw [if_neg hne, if_neg hnd, if_pos hpre, hbad]
  exact ⟨h1, processLines_skip_middle l h1⟩

/-- Witness for C5 (amended), realizing the spec's example: the line
`data: not-json` is skipped and a valid frame after it still decodes. -/
theorem c5_witness :
    processLine "data: not-json".data = LineResult.skip ∧
    processLines ["data: not-json".data, frameHi] = processLines [frameHi] ∧
    (processLines [frameHi]).1 = [⟨.str "Hi".data, none⟩] := by
  have h := c5_malformed_line_skipped "data: not-json".data
    (by decide) rfl (by decide)
  exact ⟨h.1, by simpa using h.2 [] [frameHi], rfl⟩

/-- C9: an event line whose payload is valid JSON but on which
`data.choices[0]?.delta?.content` either throws (no `choices`, so indexing
`undefined` raises a TypeError, swallowed by the same `catch` that covers
parse failures) or yields `undefined` (first choice without delta content)
emits nothing, and the surrounding lines decode as if it were absent. -/
theorem c9_payload_without_delta_skipped (l r : Str) (data : JSVal)
    (ht : jsTrim l = sseMarker ++ r)
    (hp : jsonParse r = some data)
    (hnd : extractDelta data = .error () ∨ extractDelta data = .ok .undefined) :
    processLine l = LineResult.skip ∧
    ∀ pre post : List Str,
      processLines (pre ++ l :: post) = processLines (pre ++ post) := by
  have hlen : sseMarker.length = 6 := rfl
  have hne : jsTrim l ≠ [] := by
    rw [ht]
    intro h0
    have hl := congrArg List.length h0
    simp [List.length_append] at hl
    exact absurd hl.1 (by decide)
  have hmarker : (jsTrim l).take 6 = sseMarker := by
    rw [ht, ← hlen, List.take_left]
  have hdrop : (jsTrim l).drop 6 = r := by
    rw [ht, ← hlen, List.drop_left]
  have hnotdone : jsTrim l ≠ doneLine := by
    rw [ht]
    intro h0
    have hdone : doneLine = sseMarker ++ "[DONE]".data := rfl
    rw [hdone] at h0
    have hr : r = "[DONE]".data := List.append_cancel_left h0
    rw [hr] at hp
    exact absurd hp (by rw [show jsonParse "[DONE]".data = none from rfl]; simp)
  have h1 : processLine l = LineResult.skip := by
    rcases hnd with he | hu
    · simp [processLine, hne, hnotdone, hmarker, hdrop, hp, he]
    · simp [processLine, hne, hnotdone, hmarker, hdrop, hp, hu, truthy]
  exact ⟨h1, processLines_skip_middle l h1⟩

/-- Witness for C9: one payload without any `choices` key (the field
access throws) and one whose first choice has no delta (the chain yields
`undefined`); both lines are skipped and a valid frame after them still
decodes. -/
theorem c9_witness :
    processLine "data: \x7b\"nochoices\":true\x7d".data = LineResult.skip ∧
    processLines
        ["data: \x7b\"choices\":[\x7b\x7d]\x7d".data, frameHi] =
      processLines [frameHi] := by
  have ha := c9_payload_without_delta_skipped
    "data: \x7b\"nochoices\":true\x7d".data
    "\x7b\"nochoices\":true\x7d".data
    (.obj [("nochoices".data, .bool true)]) rfl rfl (Or.inl rfl)
  have hb := c9_payload_without_delta_skipped
    "data: \x7b\"choices\":[\x7b\x7d]\x7d".data
    "\x7b\"choices\":[\x7b\x7d]\x7d".data
    (.obj [("choices".data, .arr [.obj []])]) rfl rfl (Or.inr rfl)
  exact ⟨ha.1, by simpa using hb.2 [] [frameHi]⟩

/-! ## Translator and estimator lemmas -/

/-- Dropping the empty strings of a list does not change its
concatenation. -/
theorem flatten_filter_nonempty (l : List Str) :
    (l.filter fun t => !t.isEmpty).flatten = l.flatten := by
  induction l with
  | nil => rfl
  | cons s l ih =>
    cases s with
    | nil => simpa [List.filter_cons] using ih
    | cons c s => simp [List.filter_cons, ih]

/-- Mapping each part to its text or the empty string concatenates to the
same result as keeping only the present texts. -/
theorem map_getD_flatten (ps : List Part) :
    (ps.map fun p => p.text.getD []).flatten = (ps.filterMap Part.text).flatten := by
  induction ps with
  | nil => rfl
  | cons p ps ih =>
    cases hp : p.text with
    | none => simp [List.filterMap_cons, hp, ih]
    | some s => simp [List.filterMap_cons, hp, ih]

/-- The message content computed by `convertContentsToMessages` is the
in-order concatenation of the turn's text parts. -/
theorem turnText_eq_spec (c : Content) : turnText c = specTurnText c := by
  unfold turnText specTurnText
  generalize c.parts.getD [] = ps
  induction ps with
  | nil => rfl
  | cons p ps ih =>
    cases hp : p.text with
    | none => simpa [List.filter_cons, List.filterMap_cons, hp] using ih
    | some s =>
      cases s with
      | nil => simpa [List.filter_cons, List.filterMap_cons, hp] using ih
      | cons ch s => simp [List.filter_cons, List.filterMap_cons, hp, ih]

/-- The text measured by `countTokens` is exactly the spec's
concatenation of all text parts. -/
theorem countTokensText_eq_spec (c : ContentsArg) :
    countTokensText c = specAllText c := by
  cases c with
  | str s => rfl
  | other => rfl
  | arr cs =>
    simp only [countTokensText, specAllText]
    induction cs with
    | nil => rfl
    | cons c cs ih =>
      simp only [List.map_cons, List.flatten_cons, ih]
      rw [flatten_filter_nonempty, map_getD_flatten]
      rfl

/-- C2 as stated is refuted by a turn whose role is neither `user` nor
`model`: the source passes the role through verbatim instead of mapping
it to `user`. -/
theorem c2_counterexample :
    convertContentsToMessages
        (.arr [⟨some "system".data, some [⟨some "hello".data⟩]⟩]) =
      [⟨"system".data, "hello".data⟩] ∧
    ("system".data == "user".data) = false ∧
    ("system".data == "assistant".data) = false :=
  ⟨rfl, rfl, rfl⟩

/-- C2 amended: the translator yields exactly one message per turn, in
order; role `model` maps to `assistant`, an absent or empty role maps to
`user`, and any other role passes through verbatim; each message's
content is the in-order concatenation of the turn's text parts, non-text
parts contributing nothing. -/
theorem c2_per_turn_mapping (cs : List Content) :
    (convertContentsToMessages (.arr cs)).length = cs.length ∧
    ∀ i, i < cs.length →
      (((cs.getD i ⟨none, none⟩).role = some "model".data →
        ((convertContentsToMessages (.arr cs)).getD i ⟨[], []⟩).role =
          "assistant".data) ∧
       ((cs.getD i ⟨none, none⟩).role = none ∨
          (cs.getD i ⟨none, none⟩).role = some [] →
        ((convertContentsToMessages (.arr cs)).getD i ⟨[], []⟩).role =
          "user".data) ∧
       (∀ r : Str, (cs.getD i ⟨none, none⟩).role = some r →
          r ≠ "model".data → r ≠ [] →
        ((convertContentsToMessages (.arr cs)).getD i ⟨[], []⟩).role = r) ∧
       ((convertContentsToMessages (.arr cs)).getD i ⟨[], []⟩).content =
         specTurnText (cs.getD i ⟨none, none⟩)) := by
  have km : ∀ (cs : List Content) (i : Nat), i < cs.length →
      (convertContentsToMessages (.arr cs)).getD i ⟨[], []⟩ =
        ⟨msgRole ((cs.getD i ⟨none, none⟩).role),
         turnText (cs.getD i ⟨none, none⟩)⟩ := by
    intro cs
    induction cs with
    | nil => intro i hi; simp at hi
    | cons c cs ih =>
      intro i hi
      cases i with
      | zero => rfl
      | succ n =>
        have hn : n < cs.length := by simpa using hi
        simpa [convertContentsToMessages] using ih n hn
  refine ⟨by simp [convertContentsToMessages], fun i hi => ?_⟩
  rw [km cs i hi]
  refine ⟨fun hm => ?_, fun hu => ?_, fun r hr hr1 hr2 => ?_, ?_⟩
  · show msgRole _ = _
    rw [hm]
    decide
  · show msgRole _ = _
    rcases hu with hu | hu <;> rw [hu] <;> decide
  · show msgRole _ = _
    have hinj : ¬(some r = some "model".data) := fun hh =>
      hr1 (Option.some.inj hh)
    rw [hr]
    simp only [msgRole, if_neg hinj, Option.getD_some]
    rw [if_neg hr2]
  · exact turnText_eq_spec _

/-- Witness for C2 (amended), exercising each role rule and the content
concatenation (the non-text part and the empty text part contribute
nothing). -/
theorem c2_witness :
    (convertContentsToMessages (.arr
        [⟨some "model".data, some [⟨some "a".data⟩, ⟨none⟩, ⟨some ([] : Str)⟩,
            ⟨some "b".data⟩]⟩,
         ⟨none, some [⟨some "hi".data⟩]⟩,
         ⟨some "tool".data, none⟩])).length = 3 ∧
    ((convertContentsToMessages (.arr
        [⟨some "model".data, some [⟨some "a".data⟩, ⟨none⟩, ⟨some ([] : Str)⟩,
            ⟨some "b".data⟩]⟩,
         ⟨none, some [⟨some "hi".data⟩]⟩,
         ⟨some "tool".data, none⟩])).getD 0 ⟨[], []⟩).role =
      "assistant".data ∧
    ((convertContentsToMessages (.arr
        [⟨some "model".data, some [⟨some "a".data⟩, ⟨none⟩, ⟨some ([] : Str)⟩,
            ⟨some "b".data⟩]⟩,
         ⟨none, some [⟨some "hi".data⟩]⟩,
         ⟨some "tool".data, none⟩])).getD 1 ⟨[], []⟩).role = "user".data ∧
    ((convertContentsToMessages (.arr
        [⟨some "model".data, some [⟨some "a".data⟩, ⟨none⟩, ⟨some ([] : Str)⟩,
            ⟨some "b".data⟩]⟩,
         ⟨none, some [⟨some "hi".data⟩]⟩,
         ⟨some "tool".data, none⟩])).getD 2 ⟨[], []⟩).role = "tool".data ∧
    ((convertContentsToMessages (.arr
        [⟨some "model".data, some [⟨some "a".data⟩, ⟨none⟩, ⟨some ([] : Str)⟩,
            ⟨some "b".data⟩]⟩,
         ⟨none, some [⟨some "hi".data⟩]⟩,
         ⟨some "tool".data, none⟩])).getD 0 ⟨[], []⟩).content =
      specTurnText ⟨some "model".data, some [⟨some "a".data⟩, ⟨none⟩,
        ⟨some ([] : Str)⟩, ⟨some "b".data⟩]⟩ := by
  have h := c2_per_turn_mapping
    [⟨some "model".data, some [⟨some "a".data⟩, ⟨none⟩, ⟨some ([] : Str)⟩,
        ⟨some "b".data⟩]⟩,
     ⟨none, some [⟨some "hi".data⟩]⟩,
     ⟨some "tool".data, none⟩]
  refine ⟨h.1, ?_, ?_, ?_, ?_⟩
  · exact (h.2 0 (by decide)).1 rfl
  · exact (h.2 1 (by decide)).2.1 (Or.inl rfl)
  · exact (h.2 2 (by decide)).2.2.1 "tool".data rfl (by decide) (by decide)
  · exact (h.2 0 (by decide)).2.2.2

/-! ## Response translator, token estimator, embedding -/

/-- The raw value of `data.choices[0]?.message?.content` over a given
`choices` array: the first choice's message content, `undefined` whenever
the choice, its message, or the content is absent. -/
def firstChoiceContentRaw (xs : List JSVal) : JSVal :=
  jsOptMember (jsOptMember ((xs.get? 0).getD .undefined) "message".data)
    "content".data

/-- `data.choices[0]?.message?.content || ''`: the primary text — the raw
content when truthy, otherwise the empty string. -/
def firstChoiceContent (xs : List JSVal) : JSVal :=
  if truthy (firstChoiceContentRaw xs) then firstChoiceContentRaw xs
  else .str []

/-- The verbatim `data.choices[0]?.finish_reason` over a given `choices`
array (`undefined` when absent). -/
def firstChoiceFinish (xs : List JSVal) : JSVal :=
  jsOptMember ((xs.get? 0).getD .undefined) "finish_reason".data

/-- C3 as stated is refuted by a Schema-B object with no `choices` key:
the claim requires a response whose primary text is the empty string, but
`data.choices[0]` throws a TypeError (the optional chain only starts
after `[0]`), so the translator produces no response at all. -/
theorem c3_counterexample :
    objLookup [("id".data, .str "x".data)] "choices".data = .undefined ∧
    convertOpenAIResponseToGemini (.obj [("id".data, .str "x".data)]) =
      .error () ∧
    (convertOpenAIResponseToGemini (.obj [("id".data, .str "x".data)])).isOk =
      false :=
  ⟨rfl, rfl, rfl⟩

/-- C3 amended: whenever the source object does carry a `choices` field
holding an array, the translator succeeds and its result has a single
candidate carrying the primary text as its one part with role `model` and
the source's `finish_reason` verbatim (absent when the source's is
absent); the primary text is the first choice's message content, or the
empty string when that content (or the choice itself) is absent. -/
theorem c3_translation (fields : List (Str × JSVal)) (xs : List JSVal)
    (h : objLookup fields "choices".data = .arr xs) :
    convertOpenAIResponseToGemini (.obj fields) =
      .ok ⟨[⟨[firstChoiceContent xs], "model".data, firstChoiceFinish xs, 0⟩],
        firstChoiceContent xs, .obj fields⟩ ∧
    (firstChoiceContentRaw xs = .undefined → firstChoiceContent xs = .str []) ∧
    ∀ s : Str, s ≠ [] → firstChoiceContentRaw xs = .str s →
      firstChoiceContent xs = .str s := by
  refine ⟨?_, fun h0 => ?_, fun s hs h0 => ?_⟩
  · simp only [convertOpenAIResponseToGemini, jsMember, h, jsIndex,
      firstChoiceContent, firstChoiceContentRaw, firstChoiceFinish]
  · simp [firstChoiceContent, h0, truthy]
  · simp [firstChoiceContent, h0, truthy, hs]

/-- The first choice of the spec's Schema-B example for the response
translator. -/
def c3ExChoice : JSVal :=
  .obj [("message".data, .obj [("content".data, .str "ok".data)]),
    ("finish_reason".data, .str "stop".data)]

/-- The field list of the spec's Schema-B example
`{"choices":[{"message":{"content":"ok"},"finish_reason":"stop"}]}`. -/
def c3ExFields : List (Str × JSVal) := [("choices".data, .arr [c3ExChoice])]

/-- Witness for C3 (amended), realizing the spec's example: the primary
text is `"ok"`, carried as the single candidate's one part with role
`model`, and the finish reason is `"stop"`. -/
theorem c3_witness :
    convertOpenAIResponseToGemini (.obj c3ExFields) =
      .ok ⟨[⟨[.str "ok".data], "model".data, .str "stop".data, 0⟩],
        .str "ok".data, .obj c3ExFields⟩ := by
  have h := c3_translation c3ExFields [c3ExChoice] rfl
  have hc := h.2.2 "ok".data (by decide) rfl
  have hf : firstChoiceFinish [c3ExChoice] = .str "stop".data := rfl
  exact h.1.trans (by rw [hc, hf])

/-- C7: the token-counting operation returns the ceiling of the character
count of the concatenation of all text parts divided by four — on a
string, the string itself; on a turn sequence, the in-order concatenation
of every turn's text parts (non-text parts excluded); on any other value,
zero. It is a total function of its input (it cannot fail and performs no
network call), text of length 10 yields 3, and empty content yields 0. -/
theorem c7_token_estimate :
    (∀ c : ContentsArg, countTokens c = ((specAllText c).length + 3) / 4) ∧
    countTokens (.str "helloworld".data) = 3 ∧
    countTokens (.str []) = 0 ∧
    countTokens (.arr []) = 0 := by
    refine ⟨fun c => ?_, rfl, rfl, rfl⟩
    rw [countTokens, countTokensText_eq_spec]

/-- C8: the embed operation performs no transport invocation and always
fails with the descriptive error of line 201 — it never returns a
successful result. -/
theorem c8_embed_always_fails (request : JSVal) :
    (embedContent request).1 = [] ∧
    (embedContent request).2 =
      .error "Embed content not supported via OpenRouter yet.".data ∧
    (embedContent request).2.isOk = false :=
  ⟨rfl, rfl, rfl⟩

/-- C10: for a `contents` value that is neither a string nor an array the
request translator returns the empty message list (no error), the
outbound request body carries `messages: []`, and the token estimator
counts 0 tokens. -/
theorem c10_non_sequence_contents :
    convertContentsToMessages ContentsArg.other = [] ∧
    (∀ (model : Str) (stream : Bool) (t p m : Option ℚ),
      (buildRequestBody model ContentsArg.other stream t p m).messages = []) ∧
    countTokens ContentsArg.other = 0 :=
  ⟨rfl, fun _ _ _ _ _ => rfl, rfl⟩

end OpenRouterCG
